import Mathlib

/-!
Verification of the placement data model and constraint-violation engine
(`src/solver/mod.rs`): the `Board` registry, its five public insertion
operations, and `check_violation`.

Rust `HashMap<String, V>` is modelled as an association list with
replace-on-insert semantics (`Map V`); `HashMap::insert`'s return of the
previous value is modelled by `Map.insertOp`.  Operations that can hit a
Rust `panic!`/`assert!`/`expect` return `Option`: `none` models the panic,
`some` the normal return value (paired with the updated board).
`HashSet<String>` results are modelled as `Finset String`.
-/

namespace Solver

/-- Model of `std::collections::HashMap<String, V>`: an association list
whose keys are kept unique by the insertion operation. -/
abbrev Map (V : Type) : Type := List (String × V)

/-- `HashMap::contains_key`. -/
def Map.contains_key {V : Type} (m : Map V) (k : String) : Bool :=
  m.any fun p => decide (p.1 = k)

/-- `HashMap::get`. -/
def Map.get {V : Type} : Map V → String → Option V
  | [], _ => none
  | (k', v) :: rest, k => if k' = k then some v else Map.get rest k

/-- The map produced by `HashMap::insert` (replaces the value when the key
is present, otherwise adds a new entry). -/
def Map.insert {V : Type} : Map V → String → V → Map V
  | [], k, v => [(k, v)]
  | (k', v') :: rest, k, v =>
      if k' = k then (k, v) :: rest else (k', v') :: Map.insert rest k v

/-- `HashMap::insert` proper: returns the previous value at the key (the
`op` the Rust code feeds to `assert!(op.is_none())`) together with the
updated map. -/
def Map.insertOp {V : Type} (m : Map V) (k : String) (v : V) :
    Option V × Map V :=
  (Map.get m k, Map.insert m k v)

/-- The list of keys of a map. -/
def Map.keys {V : Type} (m : Map V) : List String :=
  m.map Prod.fst

/-- `Resource`: a placement target. -/
structure Resource where
  id : String
  properties : Finset String
  capacities : Map Int
deriving DecidableEq

/-- `Resource::new`. -/
def Resource.new (id : String) : Resource :=
  { id := id, properties := ∅, capacities := [] }

/-- `Resource::add_property`; `none` models the `assert!(ok)` panic on a
duplicate tag. -/
def Resource.add_property (r : Resource) (p : String) : Option Resource :=
  if p ∈ r.properties then none
  else some { r with properties := insert p r.properties }

/-- `Entity`: a placement subject. -/
structure Entity where
  id : String
  properties : Finset String
  metrics : Map Int
  move_cost : Int
deriving DecidableEq

/-- `Entity::new`. -/
def Entity.new (id : String) : Entity :=
  { id := id, properties := ∅, metrics := [], move_cost := 0 }

/-- `Entity::add_property`; `none` models the `assert!(ok)` panic on a
duplicate tag. -/
def Entity.add_property (e : Entity) (p : String) : Option Entity :=
  if p ∈ e.properties then none
  else some { e with properties := insert p e.properties }

/-- `IDRelationKind`. -/
inductive IDRelationKind where
  | EEAffinity
  | EEAntiAffinity
  | ERAffinity
  | ERAntiAffinity
deriving DecidableEq

/-- `IDRelation`: id-based relation between entities or entity-resource. -/
structure IDRelation where
  id : String
  kind : IDRelationKind
  id1 : String
  id2 : String
deriving DecidableEq

/-- `PropertyRelationKind`. -/
inductive PropertyRelationKind where
  | Affinity
  | AntiAffinity
deriving DecidableEq

/-- `PropertyRelation`: entity property in relation to resource property. -/
structure PropertyRelation where
  id : String
  kind : PropertyRelationKind
  entity_property : String
  resource_property : String
deriving DecidableEq

/-- `IDPropertyRelation`: one entity in relation to a resource property. -/
structure IDPropertyRelation where
  id : String
  entity_id : String
  kind : PropertyRelationKind
  resource_property : String
deriving DecidableEq

/-- `Board`: the root object holding all entities. -/
structure Board where
  resources : Map Resource
  entities : Map Entity
  id_relations : Map IDRelation
  property_relations : Map PropertyRelation
  id_property_relations : Map IDPropertyRelation
  assignment : Map String
deriving DecidableEq

/-- `Board::new`. -/
def Board.new : Board :=
  { resources := [], entities := [], id_relations := [],
    property_relations := [], id_property_relations := [], assignment := [] }

/-- The outcome of the `Result<(), Error>`-returning operations: success,
or an error with `ErrorKind::AlreadyExists` / `ErrorKind::NotFound`. -/
inductive RelResult where
  | ok
  | alreadyExists
  | notFound
deriving DecidableEq

/-- `Board::add_resource`; `none` models the `assert!(op.is_none())`
panic. -/
def Board.add_resource (b : Board) (resource : Resource) :
    Option (Bool × Board) :=
  if Map.contains_key b.resources resource.id then some (false, b)
  else
    match Map.insertOp b.resources resource.id resource with
    | (some _, _) => none
    | (none, m) => some (true, { b with resources := m })

/-- `Board::add_entity`; `none` models the `assert!(op.is_none())`
panic. -/
def Board.add_entity (b : Board) (resource_id : String) (entity : Entity) :
    Option (Bool × Board) :=
  if ¬ Map.contains_key b.resources resource_id then some (false, b)
  else
    let entity_id := entity.id
    if Map.contains_key b.assignment entity_id then some (false, b)
    else if Map.contains_key b.entities entity_id then some (false, b)
    else
      match Map.insertOp b.entities entity_id entity with
      | (some _, _) => none
      | (none, m) =>
          some (true,
            { b with entities := m,
                     assignment := Map.insert b.assignment entity_id resource_id })

/-- `Board::add_id_relation`; `none` models the `assert!(op.is_none())`
panic. -/
def Board.add_id_relation (b : Board) (relation : IDRelation) :
    Option (RelResult × Board) :=
  if Map.contains_key b.id_relations relation.id then
    some (RelResult.alreadyExists, b)
  else if (relation.kind = IDRelationKind.EEAffinity
        ∨ relation.kind = IDRelationKind.EEAntiAffinity)
      ∧ (¬ Map.contains_key b.entities relation.id1
        ∨ ¬ Map.contains_key b.entities relation.id2) then
    some (RelResult.notFound, b)
  else if (relation.kind = IDRelationKind.ERAffinity
        ∨ relation.kind = IDRelationKind.ERAntiAffinity)
      ∧ ¬ Map.contains_key b.entities relation.id1 then
    some (RelResult.notFound, b)
  else if (relation.kind = IDRelationKind.ERAffinity
        ∨ relation.kind = IDRelationKind.ERAntiAffinity)
      ∧ ¬ Map.contains_key b.resources relation.id2 then
    some (RelResult.notFound, b)
  else
    match Map.insertOp b.id_relations relation.id relation with
    | (some _, _) => none
    | (none, m) => some (RelResult.ok, { b with id_relations := m })

/-- `Board::add_property_relation`; `none` models the
`assert!(op.is_none())` panic. -/
def Board.add_property_relation (b : Board) (relation : PropertyRelation) :
    Option (RelResult × Board) :=
  if Map.contains_key b.property_relations relation.id then
    some (RelResult.alreadyExists, b)
  else
    match Map.insertOp b.property_relations relation.id relation with
    | (some _, _) => none
    | (none, m) => some (RelResult.ok, { b with property_relations := m })

/-- `Board::add_id_property_relation`; `none` models the
`assert!(op.is_none())` panic (no duplicate-id guard precedes the
insertion in the source). -/
def Board.add_id_property_relation (b : Board) (relation : IDPropertyRelation) :
    Option (RelResult × Board) :=
  if ¬ Map.contains_key b.entities relation.entity_id then
    some (RelResult.notFound, b)
  else
    match Map.insertOp b.id_property_relations relation.id relation with
    | (some _, _) => none
    | (none, m) => some (RelResult.ok, { b with id_property_relations := m })

/-- Inner loop of `check_violation`: for one `PropertyRelation`, scan the
given entity entries, accumulating the violated-id set; `none` models the
`.expect("assignment not found")` / `.expect("resouce not found")`
panics. -/
def check_entities (b : Board) (relation : PropertyRelation) :
    List (String × Entity) → Finset String → Option (Finset String)
  | [], acc => some acc
  | (_, e) :: rest, acc =>
      if ¬ relation.entity_property ∈ e.properties then
        check_entities b relation rest acc
      else
        match Map.get b.assignment e.id with
        | none => none
        | some assiged_r_id =>
            match Map.get b.resources assiged_r_id with
            | none => none
            | some r =>
                if ¬ relation.resource_property ∈ r.properties then
                  check_entities b relation rest (insert relation.id acc)
                else
                  check_entities b relation rest acc

/-- Outer loop of `check_violation` over the stored property relations. -/
def check_relations (b : Board) :
    List (String × PropertyRelation) → Finset String → Option (Finset String)
  | [], acc => some acc
  | (_, relation) :: rest, acc =>
      match check_entities b relation b.entities acc with
      | none => none
      | some acc' => check_relations b rest acc'

/-- `Board::check_violation`: the set of violated property-relation ids,
or `none` when one of the internal `.expect` lookups panics. -/
def Board.check_violation (b : Board) : Option (Finset String) :=
  check_relations b b.property_relations ∅

/-- Spec-side predicate: entity `e` fails `relation`'s check — it carries
the relation's `entity_property` and is assigned to an existing resource
that does not carry the relation's `resource_property`. -/
def entity_fails (b : Board) (relation : PropertyRelation) (e : Entity) :
    Bool :=
  decide (relation.entity_property ∈ e.properties) &&
    match Map.get b.assignment e.id with
    | none => false
    | some rid =>
        match Map.get b.resources rid with
        | none => false
        | some r => decide (relation.resource_property ∉ r.properties)

/-- Spec-side predicate: some registered entity fails `relation`'s
check. -/
def rel_violated (b : Board) (relation : PropertyRelation) : Bool :=
  b.entities.any fun p => entity_fails b relation p.2

/-- One public-API call that returned (did not panic), successful or
not. -/
inductive Step : Board → Board → Prop where
  | add_resource {b : Board} {r : Resource} {res : Bool} {b' : Board} :
      b.add_resource r = some (res, b') → Step b b'
  | add_entity {b : Board} {rid : String} {e : Entity} {res : Bool}
      {b' : Board} : b.add_entity rid e = some (res, b') → Step b b'
  | add_id_relation {b : Board} {rel : IDRelation} {res : RelResult}
      {b' : Board} : b.add_id_relation rel = some (res, b') → Step b b'
  | add_property_relation {b : Board} {rel : PropertyRelation}
      {res : RelResult} {b' : Board} :
      b.add_property_relation rel = some (res, b') → Step b b'
  | add_id_property_relation {b : Board} {rel : IDPropertyRelation}
      {res : RelResult} {b' : Board} :
      b.add_id_property_relation rel = some (res, b') → Step b b'

/-- Boards reachable from `Board::new` by any sequence of public-API
calls. -/
inductive Reachable : Board → Prop where
  | new : Reachable Board.new
  | step {b b' : Board} : Reachable b → Step b b' → Reachable b'

/-- The referential-integrity invariants of the board (§3 of the spec). -/
structure Wf (b : Board) : Prop where
  res_keyed : ∀ p ∈ b.resources, p.1 = p.2.id
  ents_keyed : ∀ p ∈ b.entities, p.1 = p.2.id
  rels_keyed : ∀ p ∈ b.property_relations, p.1 = p.2.id
  rels_nodup : (Map.keys b.property_relations).Nodup
  ents_nodup : (Map.keys b.entities).Nodup
  assign_nodup : (Map.keys b.assignment).Nodup
  assign_keys : ∀ k, Map.contains_key b.assignment k
      = Map.contains_key b.entities k
  assign_vals : ∀ p ∈ b.assignment, Map.contains_key b.resources p.2 = true

/-- The `node1` resource of the source's `board_test` (property `red`). -/
def node1 : Resource :=
  { id := "node1", properties := {"red"}, capacities := [] }

/-- The `node2` resource of `board_test` (property `blue`). -/
def node2 : Resource :=
  { id := "node2", properties := {"blue"}, capacities := [] }

/-- The `app1` entity of `board_test` (property `red`). -/
def app1 : Entity :=
  { id := "app1", properties := {"red"}, metrics := [], move_cost := 0 }

/-- The `color` Affinity property relation of `board_test`. -/
def color_rel : PropertyRelation :=
  { id := "color", kind := PropertyRelationKind.Affinity,
    entity_property := "red", resource_property := "red" }

/-- The same relation with kind `AntiAffinity`. -/
def color_anti_rel : PropertyRelation :=
  { id := "color", kind := PropertyRelationKind.AntiAffinity,
    entity_property := "red", resource_property := "red" }

/-- The board built by the source's `board_test`: red `app1` placed on
blue `node2`, with the `color` Affinity relation declared. -/
def board_test : Board :=
  { resources := [("node1", node1), ("node2", node2)],
    entities := [("app1", app1)],
    id_relations := [],
    property_relations := [("color", color_rel)],
    id_property_relations := [],
    assignment := [("app1", "node2")] }

/-- Variant of `board_test` whose sole property relation has kind
`AntiAffinity`. -/
def board_anti : Board :=
  { board_test with property_relations := [("color", color_anti_rel)] }

/-- An id-property relation tying `app1` to resource property `red`. -/
def ipr1 : IDPropertyRelation :=
  { id := "ipr1", entity_id := "app1",
    kind := PropertyRelationKind.Affinity, resource_property := "red" }

/-- A board that already stores `ipr1` in its id-property-relation map. -/
def board_dup : Board :=
  { resources := [("node1", node1)],
    entities := [("app1", app1)],
    id_relations := [],
    property_relations := [],
    id_property_relations := [("ipr1", ipr1)],
    assignment := [("app1", "node1")] }

/-- The board holding only the resource `node1`. -/
def board_res1 : Board :=
  { Board.new with resources := [("node1", node1)] }

/-- `board_res1` after `app1` is added onto `node1`. -/
def board_app1 : Board :=
  { resources := [("node1", node1)],
    entities := [("app1", app1)],
    id_relations := [],
    property_relations := [],
    id_property_relations := [],
    assignment := [("app1", "node1")] }

theorem Map.contains_key_iff {V : Type} (m : Map V) (k : String) :
    Map.contains_key m k = true ↔ ∃ p ∈ m, p.1 = k := by
  simp [Map.contains_key, List.any_eq_true]

theorem Map.contains_key_eq_isSome_get {V : Type} (m : Map V) (k : String) :
    Map.contains_key m k = (Map.get m k).isSome := by
  induction m with
  | nil => simp [Map.contains_key, Map.get]
  | cons p rest ih =>
      obtain ⟨k', v⟩ := p
      by_cases h : k' = k
      · simp [Map.contains_key, Map.get, h]
      · simp [Map.contains_key, Map.get, h] at ih ⊢
        exact ih

theorem Map.get_eq_none_of_contains_false {V : Type} {m : Map V} {k : String}
    (h : Map.contains_key m k = false) : Map.get m k = none := by
  have h2 := Map.contains_key_eq_isSome_get m k
  rw [h] at h2
  cases hg : Map.get m k with
  | none => rfl
  | some v => rw [hg] at h2; simp at h2

theorem Map.get_mem {V : Type} {m : Map V} {k : String} {v : V}
    (h : Map.get m k = some v) : (k, v) ∈ m := by
  induction m with
  | nil => simp [Map.get] at h
  | cons p rest ih =>
      obtain ⟨k', v'⟩ := p
      by_cases hk : k' = k
      · simp [Map.get, hk] at h
        subst hk; subst h
        exact List.mem_cons_self _ _
      · simp [Map.get, hk] at h
        exact List.mem_cons_of_mem _ (ih h)

theorem Map.mem_keys_iff {V : Type} (m : Map V) (k : String) :
    k ∈ Map.keys m ↔ Map.contains_key m k = true := by
  simp [Map.keys, Map.contains_key_iff, List.mem_map]

theorem Map.get_insert_self {V : Type} (m : Map V) (k : String) (v : V) :
    Map.get (Map.insert m k v) k = some v := by
  induction m with
  | nil => simp [Map.insert, Map.get]
  | cons p rest ih =>
      obtain ⟨k', v'⟩ := p
      by_cases h : k' = k
      · simp [Map.insert, h, Map.get]
      · simp [Map.insert, h, Map.get, ih]

theorem Map.get_insert_ne {V : Type} (m : Map V) {k k' : String} (v : V)
    (h : k' ≠ k) : Map.get (Map.insert m k v) k' = Map.get m k' := by
  induction m with
  | nil => simp [Map.insert, Map.get, Ne.symm h]
  | cons p rest ih =>
      obtain ⟨k'', v''⟩ := p
      by_cases hk : k'' = k
      · subst hk
        simp [Map.insert, Map.get, Ne.symm h]
      · simp [Map.insert, hk, Map.get, ih]

theorem Map.contains_key_insert {V : Type} (m : Map V) (k k' : String) (v : V) :
    Map.contains_key (Map.insert m k v) k'
      = (decide (k = k') || Map.contains_key m k') := by
  rw [Map.contains_key_eq_isSome_get, Map.contains_key_eq_isSome_get]
  by_cases h : k' = k
  · subst h
    simp [Map.get_insert_self]
  · rw [Map.get_insert_ne m v h]
    simp [Ne.symm h]

theorem Map.mem_insert_elim {V : Type} {m : Map V} {k : String} {v : V}
    {p : String × V} (h : p ∈ Map.insert m k v) : p = (k, v) ∨ p ∈ m := by
  induction m with
  | nil => simp [Map.insert] at h; simp [h]
  | cons q rest ih =>
      obtain ⟨k', v'⟩ := q
      by_cases hk : k' = k
      · simp [Map.insert, hk] at h
        rcases h with h | h
        · exact Or.inl (by simp [h])
        · exact Or.inr (List.mem_cons_of_mem _ h)
      · simp [Map.insert, hk] at h
        rcases h with h | h
        · exact Or.inr (by simp [h])
        · rcases ih h with h' | h'
          · exact Or.inl h'
          · exact Or.inr (List.mem_cons_of_mem _ h')

theorem Map.keys_insert_of_contains_false {V : Type} {m : Map V} {k : String}
    (v : V) (h : Map.contains_key m k = false) :
    Map.keys (Map.insert m k v) = Map.keys m ++ [k] := by
  induction m with
  | nil => simp [Map.insert, Map.keys]
  | cons p rest ih =>
      obtain ⟨k', v'⟩ := p
      simp [Map.contains_key] at h
      obtain ⟨h1, h2⟩ := h
      have hrest : Map.contains_key rest k = false := by
        simp [Map.contains_key]
        exact fun a b hab => h2 a b hab
      simp [Map.insert, h1, Map.keys] at ih ⊢
      exact ih hrest

theorem Map.eq_of_mem_of_nodup_keys {V : Type} {m : Map V}
    (hnd : (Map.keys m).Nodup) {p q : String × V}
    (hp : p ∈ m) (hq : q ∈ m) (hpq : p.1 = q.1) : p = q := by
  induction m with
  | nil => simp at hp
  | cons a rest ih =>
      simp [Map.keys] at hnd
      obtain ⟨ha, hnd'⟩ := hnd
      rcases List.mem_cons.mp hp with hp' | hp' <;>
        rcases List.mem_cons.mp hq with hq' | hq'
      · rw [hp', hq']
      · exfalso
        have h1 : q.1 = a.1 := by rw [← hpq, hp']
        have h2 : (a.1, q.2) ∈ rest := by rw [← h1, Prod.mk.eta]; exact hq'
        exact ha q.2 h2
      · exfalso
        have h1 : p.1 = a.1 := by rw [hpq, hq']
        have h2 : (a.1, p.2) ∈ rest := by rw [← h1, Prod.mk.eta]; exact hp'
        exact ha p.2 h2
      · exact ih hnd' hp' hq'

theorem Map.get_isSome_of_contains {V : Type} {m : Map V} {k : String}
    (h : Map.contains_key m k = true) : ∃ v, Map.get m k = some v := by
  have h2 := Map.contains_key_eq_isSome_get m k
  rw [h] at h2
  cases hg : Map.get m k with
  | none => rw [hg] at h2; simp at h2
  | some v => exact ⟨v, rfl⟩

theorem exists_mem_cons {α : Type} {a : α} {l : List α} {P : α → Prop} :
    (∃ x ∈ a :: l, P x) ↔ P a ∨ ∃ x ∈ l, P x := by
  constructor
  · rintro ⟨x, hx, hP⟩
    rcases List.mem_cons.mp hx with rfl | hx'
    · exact Or.inl hP
    · exact Or.inr ⟨x, hx', hP⟩
  · rintro (hP | ⟨x, hx, hP⟩)
    · exact ⟨a, List.mem_cons_self a l, hP⟩
    · exact ⟨x, List.mem_cons_of_mem a hx, hP⟩

theorem check_entities_mem (b : Board) (relation : PropertyRelation) :
    ∀ (es : List (String × Entity)) (acc s : Finset String),
      check_entities b relation es acc = some s →
      ∀ x, x ∈ s ↔ x ∈ acc
        ∨ (x = relation.id ∧ ∃ p ∈ es, entity_fails b relation p.2 = true) := by
  intro es
  induction es with
  | nil =>
      intro acc s h x
      simp [check_entities] at h
      subst h
      simp
  | cons q rest ih =>
      intro acc s h x
      obtain ⟨k, e⟩ := q
      by_cases hep : relation.entity_property ∈ e.properties
      · cases hA : Map.get b.assignment e.id with
        | none => simp [check_entities, hep, hA] at h
        | some rid =>
            cases hR : Map.get b.resources rid with
            | none => simp [check_entities, hep, hA, hR] at h
            | some r =>
                by_cases hrp : relation.resource_property ∈ r.properties
                · simp only [check_entities, hep, hA, hR, hrp, not_true,
                    if_false, ite_false, not_false_iff, ite_true] at h
                  have he : entity_fails b relation e = false := by
                    simp [entity_fails, hA, hR, hrp]
                  rw [ih acc s h x]
                  simp [exists_mem_cons, he]
                · simp only [check_entities, hep, hA, hR, hrp, not_true,
                    if_false, ite_false, not_false_iff, ite_true] at h
                  have he : entity_fails b relation e = true := by
                    simp [entity_fails, hep, hA, hR, hrp]
                  rw [ih _ s h x]
                  constructor
                  · rintro (hin | ⟨rfl, p, hp, hfp⟩)
                    · rcases Finset.mem_insert.mp hin with rfl | hacc
                      · exact Or.inr ⟨rfl, (k, e), List.mem_cons_self _ _, he⟩
                      · exact Or.inl hacc
                    · exact Or.inr ⟨rfl, p, List.mem_cons_of_mem _ hp, hfp⟩
                  · rintro (hacc | ⟨rfl, p, hp, hfp⟩)
                    · exact Or.inl (Finset.mem_insert.mpr (Or.inr hacc))
                    · exact Or.inl (Finset.mem_insert.mpr (Or.inl rfl))
      · simp only [check_entities, hep, not_false_iff, ite_true] at h
        have he : entity_fails b relation e = false := by
          simp [entity_fails, hep]
        rw [ih acc s h x]
        simp [exists_mem_cons, he]

theorem check_entities_isSome (b : Board) (relation : PropertyRelation) :
    ∀ (es : List (String × Entity)),
      (∀ p ∈ es, ∃ rid, Map.get b.assignment p.2.id = some rid
        ∧ ∃ r, Map.get b.resources rid = some r) →
      ∀ acc, ∃ s, check_entities b relation es acc = some s := by
  intro es
  induction es with
  | nil => intro _ acc; exact ⟨acc, rfl⟩
  | cons q rest ih =>
      intro hsafe acc
      obtain ⟨k, e⟩ := q
      by_cases hep : relation.entity_property ∈ e.properties
      · obtain ⟨rid, hA, r, hR⟩ := hsafe (k, e) (List.mem_cons_self _ _)
        by_cases hrp : relation.resource_property ∈ r.properties
        · obtain ⟨s, hs⟩ := ih (fun p hp => hsafe p (List.mem_cons_of_mem _ hp)) acc
          exact ⟨s, by simp [check_entities, hep, hA, hR, hrp, hs]⟩
        · obtain ⟨s, hs⟩ :=
            ih (fun p hp => hsafe p (List.mem_cons_of_mem _ hp))
              (insert relation.id acc)
          exact ⟨s, by simp [check_entities, hep, hA, hR, hrp, hs]⟩
      · obtain ⟨s, hs⟩ := ih (fun p hp => hsafe p (List.mem_cons_of_mem _ hp)) acc
        exact ⟨s, by simp [check_entities, hep, hs]⟩

theorem check_relations_mem (b : Board) :
    ∀ (rels : List (String × PropertyRelation)) (acc s : Finset String),
      check_relations b rels acc = some s →
      ∀ x, x ∈ s ↔ x ∈ acc
        ∨ ∃ q ∈ rels, q.2.id = x ∧ rel_violated b q.2 = true := by
  intro rels
  induction rels with
  | nil =>
      intro acc s h x
      simp [check_relations] at h
      subst h
      simp
  | cons q rest ih =>
      intro acc s h x
      obtain ⟨k, relation⟩ := q
      cases hE : check_entities b relation b.entities acc with
      | none => simp [check_relations, hE] at h
      | some acc' =>
          simp only [check_relations, hE] at h
          have hrv : rel_violated b relation = true
              ↔ ∃ p ∈ b.entities, entity_fails b relation p.2 = true := by
            simp [rel_violated, List.any_eq_true]
          rw [ih acc' s h x, check_entities_mem b relation b.entities acc acc' hE x]
          rw [exists_mem_cons]
          constructor
          · rintro ((hacc | ⟨rfl, hfail⟩) | hrest)
            · exact Or.inl hacc
            · exact Or.inr (Or.inl ⟨rfl, hrv.mpr hfail⟩)
            · exact Or.inr (Or.inr hrest)
          · rintro (hacc | (⟨hid, hviol⟩ | hrest))
            · exact Or.inl (Or.inl hacc)
            · exact Or.inl (Or.inr ⟨hid.symm, hrv.mp hviol⟩)
            · exact Or.inr hrest

theorem check_relations_isSome (b : Board)
    (hsafe : ∀ p ∈ b.entities, ∃ rid, Map.get b.assignment p.2.id = some rid
      ∧ ∃ r, Map.get b.resources rid = some r) :
    ∀ (rels : List (String × PropertyRelation)) (acc : Finset String),
      ∃ s, check_relations b rels acc = some s := by
  intro rels
  induction rels with
  | nil => intro acc; exact ⟨acc, rfl⟩
  | cons q rest ih =>
      intro acc
      obtain ⟨k, relation⟩ := q
      obtain ⟨acc', hacc'⟩ := check_entities_isSome b relation b.entities hsafe acc
      obtain ⟨s, hs⟩ := ih acc'
      exact ⟨s, by simp [check_relations, hacc', hs]⟩

theorem check_violation_mem (b : Board) (s : Finset String)
    (h : b.check_violation = some s) (x : String) :
    x ∈ s ↔ ∃ q ∈ b.property_relations, q.2.id = x ∧ rel_violated b q.2 = true := by
  have h2 := check_relations_mem b b.property_relations ∅ s h x
  simpa using h2

theorem wf_new : Wf Board.new := by
  constructor <;> simp [Board.new, Map.keys, Map.contains_key]

theorem wf_add_resource {b : Board} {r : Resource} {res : Bool} {b' : Board}
    (hb : Wf b) (h : b.add_resource r = some (res, b')) : Wf b' := by
  unfold Board.add_resource at h
  by_cases hc : Map.contains_key b.resources r.id
  · simp [hc] at h
    obtain ⟨-, h2⟩ := h
    subst h2
    exact hb
  · have hc' : Map.contains_key b.resources r.id = false := by simpa using hc
    simp [hc, Map.insertOp, Map.get_eq_none_of_contains_false hc'] at h
    obtain ⟨-, h2⟩ := h
    subst h2
    refine ⟨?_, hb.ents_keyed, hb.rels_keyed, hb.rels_nodup, hb.ents_nodup,
      hb.assign_nodup, hb.assign_keys, ?_⟩
    · intro p hp
      rcases Map.mem_insert_elim hp with h' | h'
      · rw [h']
      · exact hb.res_keyed p h'
    · intro p hp
      rw [Map.contains_key_insert]
      simp [hb.assign_vals p hp]

theorem wf_add_entity {b : Board} {rid : String} {e : Entity} {res : Bool}
    {b' : Board} (hb : Wf b) (h : b.add_entity rid e = some (res, b')) :
    Wf b' := by
  unfold Board.add_entity at h
  by_cases h1 : Map.contains_key b.resources rid
  · by_cases h2 : Map.contains_key b.assignment e.id
    · simp [h1, h2] at h
      obtain ⟨-, hb'⟩ := h
      subst hb'
      exact hb
    · by_cases h3 : Map.contains_key b.entities e.id
      · simp [h1, h2, h3] at h
        obtain ⟨-, hb'⟩ := h
        subst hb'
        exact hb
      · have h3' : Map.contains_key b.entities e.id = false := by simpa using h3
        have h2' : Map.contains_key b.assignment e.id = false := by simpa using h2
        simp [h1, h2, h3, Map.insertOp,
          Map.get_eq_none_of_contains_false h3'] at h
        obtain ⟨-, hb'⟩ := h
        subst hb'
        have hemem : e.id ∉ Map.keys b.entities := by
          rw [Map.mem_keys_iff]
          simp [h3']
        have hamem : e.id ∉ Map.keys b.assignment := by
          rw [Map.mem_keys_iff]
          simp [h2']
        refine ⟨hb.res_keyed, ?_, hb.rels_keyed, hb.rels_nodup, ?_, ?_, ?_, ?_⟩
        · intro p hp
          rcases Map.mem_insert_elim hp with h' | h'
          · rw [h']
          · exact hb.ents_keyed p h'
        · rw [Map.keys_insert_of_contains_false e h3']
          exact hb.ents_nodup.append (List.nodup_singleton _)
            (List.disjoint_singleton.mpr hemem)
        · rw [Map.keys_insert_of_contains_false rid h2']
          exact hb.assign_nodup.append (List.nodup_singleton _)
            (List.disjoint_singleton.mpr hamem)
        · intro k
          rw [Map.contains_key_insert, Map.contains_key_insert,
            hb.assign_keys k]
        · intro p hp
          rcases Map.mem_insert_elim hp with h' | h'
          · rw [h']
            exact h1
          · exact hb.assign_vals p h'
  · simp [h1] at h
    obtain ⟨-, hb'⟩ := h
    subst hb'
    exact hb

theorem wf_add_id_relation {b : Board} {rel : IDRelation} {res : RelResult}
    {b' : Board} (hb : Wf b) (h : b.add_id_relation rel = some (res, b')) :
    Wf b' := by
  unfold Board.add_id_relation at h
  by_cases h1 : Map.contains_key b.id_relations rel.id
  · simp [h1] at h
    obtain ⟨-, h2⟩ := h
    subst h2
    exact hb
  · have h1' : Map.contains_key b.id_relations rel.id = false := by
      simpa using h1
    rw [if_neg (by simpa using h1)] at h
    split at h
    · simp at h
      obtain ⟨-, h2⟩ := h
      subst h2
      exact hb
    · split at h
      · simp at h
        obtain ⟨-, h2⟩ := h
        subst h2
        exact hb
      · split at h
        · simp at h
          obtain ⟨-, h2⟩ := h
          subst h2
          exact hb
        · simp [Map.insertOp, Map.get_eq_none_of_contains_false h1'] at h
          obtain ⟨-, h2⟩ := h
          subst h2
          exact ⟨hb.res_keyed, hb.ents_keyed, hb.rels_keyed, hb.rels_nodup,
            hb.ents_nodup, hb.assign_nodup, hb.assign_keys, hb.assign_vals⟩

theorem wf_add_property_relation {b : Board} {rel : PropertyRelation}
    {res : RelResult} {b' : Board} (hb : Wf b)
    (h : b.add_property_relation rel = some (res, b')) : Wf b' := by
  unfold Board.add_property_relation at h
  by_cases hc : Map.contains_key b.property_relations rel.id
  · simp [hc] at h
    obtain ⟨-, h2⟩ := h
    subst h2
    exact hb
  · have hc' : Map.contains_key b.property_relations rel.id = false := by
      simpa using hc
    simp [hc, Map.insertOp, Map.get_eq_none_of_contains_false hc'] at h
    obtain ⟨-, h2⟩ := h
    subst h2
    have hnm : rel.id ∉ Map.keys b.property_relations := by
      rw [Map.mem_keys_iff]
      simp [hc']
    refine ⟨hb.res_keyed, hb.ents_keyed, ?_, ?_, hb.ents_nodup,
      hb.assign_nodup, hb.assign_keys, hb.assign_vals⟩
    · intro p hp
      rcases Map.mem_insert_elim hp with h' | h'
      · rw [h']
      · exact hb.rels_keyed p h'
    · rw [Map.keys_insert_of_contains_false rel hc']
      exact hb.rels_nodup.append (List.nodup_singleton _)
        (List.disjoint_singleton.mpr hnm)

theorem wf_add_id_property_relation {b : Board} {rel : IDPropertyRelation}
    {res : RelResult} {b' : Board} (hb : Wf b)
    (h : b.add_id_property_relation rel = some (res, b')) : Wf b' := by
  unfold Board.add_id_property_relation at h
  by_cases hc : Map.contains_key b.entities rel.entity_id
  · simp [hc] at h
    cases hg : Map.get b.id_property_relations rel.id with
    | some v => simp [Map.insertOp, hg] at h
    | none =>
        simp [Map.insertOp, hg] at h
        obtain ⟨-, h2⟩ := h
        subst h2
        exact ⟨hb.res_keyed, hb.ents_keyed, hb.rels_keyed, hb.rels_nodup,
          hb.ents_nodup, hb.assign_nodup, hb.assign_keys, hb.assign_vals⟩
  · simp [hc] at h
    obtain ⟨-, h2⟩ := h
    subst h2
    exact hb

theorem wf_step {b b' : Board} (hb : Wf b) (hstep : Step b b') : Wf b' := by
  cases hstep with
  | add_resource h => exact wf_add_resource hb h
  | add_entity h => exact wf_add_entity hb h
  | add_id_relation h => exact wf_add_id_relation hb h
  | add_property_relation h => exact wf_add_property_relation hb h
  | add_id_property_relation h => exact wf_add_id_property_relation hb h

theorem wf_reachable {b : Board} (h : Reachable b) : Wf b := by
  induction h with
  | new => exact wf_new
  | step _ hstep ih => exact wf_step ih hstep

theorem wf_safe {b : Board} (hb : Wf b) :
    ∀ p ∈ b.entities, ∃ rid, Map.get b.assignment p.2.id = some rid
      ∧ ∃ r, Map.get b.resources rid = some r := by
  intro p hp
  have h1 : Map.contains_key b.entities p.2.id = true := by
    rw [← hb.ents_keyed p hp]
    exact (Map.contains_key_iff _ _).mpr ⟨p, hp, rfl⟩
  have h2 : Map.contains_key b.assignment p.2.id = true := by
    rw [hb.assign_keys]
    exact h1
  obtain ⟨rid, hA⟩ := Map.get_isSome_of_contains h2
  have h4 : Map.contains_key b.resources rid = true :=
    hb.assign_vals _ (Map.get_mem hA)
  obtain ⟨r, hR⟩ := Map.get_isSome_of_contains h4
  exact ⟨rid, hA, r, hR⟩

theorem rel_id_unique {b : Board} (hb : Wf b) {k : String}
    {rel : PropertyRelation} (hmem : (k, rel) ∈ b.property_relations)
    {q : String × PropertyRelation} (hq : q ∈ b.property_relations)
    (hid : q.2.id = rel.id) : q.2 = rel := by
  have hk : k = rel.id := hb.rels_keyed (k, rel) hmem
  have hq1 : q.1 = (k, rel).1 := by
    rw [hb.rels_keyed q hq, hid, hk]
  have h := Map.eq_of_mem_of_nodup_keys hb.rels_nodup hq hmem hq1
  rw [h]

theorem check_violation_mem_of_wf {b : Board} (hb : Wf b) {k : String}
    {rel : PropertyRelation} (hmem : (k, rel) ∈ b.property_relations)
    {s : Finset String} (hs : b.check_violation = some s) :
    rel.id ∈ s ↔ rel_violated b rel = true := by
  rw [check_violation_mem b s hs rel.id]
  constructor
  · rintro ⟨q, hq, hid, hviol⟩
    rwa [rel_id_unique hb hmem hq hid] at hviol
  · intro hviol
    exact ⟨(k, rel), hmem, rfl, hviol⟩

theorem reach_board_res1 : Reachable board_res1 :=
  Reachable.new.step
    (@Step.add_resource _ node1 true _ (by decide))

theorem reach_placed : Reachable
    { Board.new with
      resources := [("node1", node1), ("node2", node2)],
      entities := [("app1", app1)],
      assignment := [("app1", "node2")] } := by
  have h2 : Reachable
      { Board.new with resources := [("node1", node1), ("node2", node2)] } :=
    reach_board_res1.step
      (@Step.add_resource _ node2 true _ (by decide))
  exact h2.step
    (@Step.add_entity _ "node2" app1 true _ (by decide))

theorem reach_board_test : Reachable board_test :=
  reach_placed.step
    (@Step.add_property_relation _ color_rel RelResult.ok _ (by decide))

theorem reach_board_anti : Reachable board_anti :=
  reach_placed.step
    (@Step.add_property_relation _ color_anti_rel RelResult.ok _ (by decide))

theorem reach_board_app1 : Reachable board_app1 :=
  reach_board_res1.step
    (@Step.add_entity _ "node1" app1 true _ (by decide))

theorem reach_board_dup : Reachable board_dup :=
  reach_board_app1.step
    (@Step.add_id_property_relation _ ipr1 RelResult.ok _ (by decide))

/-- Claim C1: on every reachable board, a stored property relation of kind
`Affinity` has its id in the set returned by `check_violation` iff at least
one registered entity carries the relation's `entity_property` while its
assigned resource does not carry the relation's `resource_property`; a
relation with several failing entities contributes one id, and the result
is a set, hence duplicate-free. -/
theorem affinity_violation_iff (b : Board) (h : Reachable b) (k : String)
    (relation : PropertyRelation)
    (hmem : (k, relation) ∈ b.property_relations)
    (_hkind : relation.kind = PropertyRelationKind.Affinity)
    (s : Finset String) (hs : b.check_violation = some s) :
    relation.id ∈ s ↔ rel_violated b relation = true :=
  check_violation_mem_of_wf (wf_reachable h) hmem hs

/-- Witness for C1 at the source's `board_test` scenario. -/
theorem affinity_violation_iff_witness :
    color_rel.id ∈ ({"color"} : Finset String)
      ↔ rel_violated board_test color_rel = true :=
  affinity_violation_iff board_test reach_board_test "color" color_rel
    (by decide) rfl {"color"} (by decide)

/-- Claim C2: on every reachable board the assignment map's key set equals
the entity catalog's key set, each map binds each key once, and every
assignment value is the id of an existing resource. -/
theorem assignment_integrity (b : Board) (h : Reachable b) :
    (Map.keys b.assignment).toFinset = (Map.keys b.entities).toFinset
      ∧ (Map.keys b.assignment).Nodup
      ∧ (Map.keys b.entities).Nodup
      ∧ ∀ p ∈ b.assignment,
          ∃ r, Map.get b.resources p.2 = some r ∧ r.id = p.2 := by
  have hb := wf_reachable h
  refine ⟨?_, hb.assign_nodup, hb.ents_nodup, ?_⟩
  · ext k
    simp only [List.mem_toFinset]
    rw [Map.mem_keys_iff, Map.mem_keys_iff, hb.assign_keys k]
  · intro p hp
    obtain ⟨r, hr⟩ := Map.get_isSome_of_contains (hb.assign_vals p hp)
    exact ⟨r, hr, (hb.res_keyed (p.2, r) (Map.get_mem hr)).symm⟩

/-- Witness for C2 at `board_test`. -/
theorem assignment_integrity_witness :
    (Map.keys board_test.assignment).toFinset
        = (Map.keys board_test.entities).toFinset
      ∧ (Map.keys board_test.assignment).Nodup
      ∧ (Map.keys board_test.entities).Nodup
      ∧ ∀ p ∈ board_test.assignment,
          ∃ r, Map.get board_test.resources p.2 = some r ∧ r.id = p.2 :=
  assignment_integrity board_test reach_board_test

/-- Claim C3: on every reachable board `check_violation` returns normally —
the `.expect("assignment not found")` and `.expect("resouce not found")`
panic branches (modelled by the `none` outcome) are unreachable. -/
theorem check_violation_no_panic (b : Board) (h : Reachable b) :
    ∃ s, b.check_violation = some s :=
  check_relations_isSome b (wf_safe (wf_reachable h)) b.property_relations ∅

/-- Witness for C3 at `board_test`. -/
theorem check_violation_no_panic_witness :
    ∃ s, board_test.check_violation = some s :=
  check_violation_no_panic board_test reach_board_test

/-- Claim C4: whenever `add_entity resource_id entity` succeeds (returns
`true`), the resulting board maps `entity.id` to `resource_id` in the
assignment map and records `entity.id` in the entity catalog. -/
theorem add_entity_success_assigns (b b' : Board) (resource_id : String)
    (e : Entity) (h : b.add_entity resource_id e = some (true, b')) :
    Map.get b'.assignment e.id = some resource_id
      ∧ Map.contains_key b'.entities e.id = true := by
  unfold Board.add_entity at h
  by_cases h1 : Map.contains_key b.resources resource_id
  · by_cases h2 : Map.contains_key b.assignment e.id
    · simp [h1, h2] at h
    · by_cases h3 : Map.contains_key b.entities e.id
      · simp [h1, h2, h3] at h
      · have h3' : Map.contains_key b.entities e.id = false := by
          simpa using h3
        simp [h1, h2, h3, Map.insertOp,
          Map.get_eq_none_of_contains_false h3'] at h
        subst h
        constructor
        · exact Map.get_insert_self _ _ _
        · rw [Map.contains_key_insert]
          simp
  · simp [h1] at h

/-- Witness for C4: adding `app1` onto `node1` in `board_res1`. -/
theorem add_entity_success_assigns_witness :
    Map.get board_app1.assignment app1.id = some "node1"
      ∧ Map.contains_key board_app1.entities app1.id = true :=
  add_entity_success_assigns board_res1 board_app1 "node1" app1 (by decide)

/-- Claim C5: `add_id_relation` fails with `AlreadyExists` when the
relation id is already in the id-relation map; otherwise, for EE kinds it
fails with `NotFound` unless both `id1` and `id2` are existing entities,
for ER kinds it fails with `NotFound` unless `id1` is an existing entity
and `id2` an existing resource; in all remaining cases it inserts the
relation and succeeds (in particular the assert/panic branch is never
taken). -/
theorem add_id_relation_spec (b : Board) (relation : IDRelation) :
    b.add_id_relation relation =
      if Map.contains_key b.id_relations relation.id then
        some (RelResult.alreadyExists, b)
      else if (relation.kind = IDRelationKind.EEAffinity
            ∨ relation.kind = IDRelationKind.EEAntiAffinity)
          ∧ ¬(Map.contains_key b.entities relation.id1
            ∧ Map.contains_key b.entities relation.id2) then
        some (RelResult.notFound, b)
      else if (relation.kind = IDRelationKind.ERAffinity
            ∨ relation.kind = IDRelationKind.ERAntiAffinity)
          ∧ ¬(Map.contains_key b.entities relation.id1
            ∧ Map.contains_key b.resources relation.id2) then
        some (RelResult.notFound, b)
      else
        some (RelResult.ok,
          { b with id_relations :=
              Map.insert b.id_relations relation.id relation }) := by
  obtain ⟨rid, kind, id1, id2⟩ := relation
  unfold Board.add_id_relation
  by_cases h1 : Map.contains_key b.id_relations rid
  · simp [h1]
  · have h1' : Map.contains_key b.id_relations rid = false := by simpa using h1
    cases kind with
    | EEAffinity =>
        by_cases e1 : Map.contains_key b.entities id1
        · by_cases e2 : Map.contains_key b.entities id2
          · simp [h1, e1, e2, Map.insertOp,
              Map.get_eq_none_of_contains_false h1']
          · simp [h1, e1, e2]
        · simp [h1, e1]
    | EEAntiAffinity =>
        by_cases e1 : Map.contains_key b.entities id1
        · by_cases e2 : Map.contains_key b.entities id2
          · simp [h1, e1, e2, Map.insertOp,
              Map.get_eq_none_of_contains_false h1']
          · simp [h1, e1, e2]
        · simp [h1, e1]
    | ERAffinity =>
        by_cases e1 : Map.contains_key b.entities id1
        · by_cases r2 : Map.contains_key b.resources id2
          · simp [h1, e1, r2, Map.insertOp,
              Map.get_eq_none_of_contains_false h1']
          · simp [h1, e1, r2]
        · simp [h1, e1]
    | ERAntiAffinity =>
        by_cases e1 : Map.contains_key b.entities id1
        · by_cases r2 : Map.contains_key b.resources id2
          · simp [h1, e1, r2, Map.insertOp,
              Map.get_eq_none_of_contains_false h1']
          · simp [h1, e1, r2]
        · simp [h1, e1]

/-- Claim C6 (the code contradicts it): `add_id_property_relation` indeed
performs no `AlreadyExists` uniqueness check, but re-adding a relation
whose id is already stored (with an existing `entity_id`) does not
complete normally: the unconditional `HashMap::insert` returns the old
value and the following `assert!(op.is_none())` fires — the panic outcome
`none` — on the public-API-reachable board `board_dup`. -/
theorem add_id_property_relation_dup_panics :
    Reachable board_dup
      ∧ board_dup.add_id_property_relation ipr1 = none :=
  ⟨reach_board_dup, by decide⟩

/-- Claim C7: a second `add_resource` with an already-present resource id
fails (returns `false`) and leaves the board — in particular the
originally stored resource record — unchanged. -/
theorem add_resource_duplicate_fails (b b1 : Board) (r1 r2 : Resource)
    (h1 : b.add_resource r1 = some (true, b1)) (h2 : r2.id = r1.id) :
    b1.add_resource r2 = some (false, b1)
      ∧ Map.get b1.resources r1.id = some r1 := by
  unfold Board.add_resource at h1
  by_cases hc : Map.contains_key b.resources r1.id
  · simp [hc] at h1
  · have hc' : Map.contains_key b.resources r1.id = false := by simpa using hc
    simp [hc, Map.insertOp, Map.get_eq_none_of_contains_false hc'] at h1
    subst h1
    have hcontains : Map.contains_key
        (Map.insert b.resources r1.id r1) r2.id = true := by
      rw [h2, Map.contains_key_insert]
      simp
    constructor
    · unfold Board.add_resource
      simp [hcontains]
    · exact Map.get_insert_self _ _ _

/-- Witness for C7: re-adding `node1` to `board_res1`. -/
theorem add_resource_duplicate_fails_witness :
    board_res1.add_resource node1 = some (false, board_res1)
      ∧ Map.get board_res1.resources node1.id = some node1 :=
  add_resource_duplicate_fails Board.new board_res1 node1 node1
    (by decide) rfl

/-- Claim C8: `check_violation` is deterministic in the board state — two
calls without an intervening mutation return the same set. -/
theorem check_violation_deterministic (b : Board) (s1 s2 : Finset String)
    (h1 : b.check_violation = some s1) (h2 : b.check_violation = some s2) :
    s1 = s2 := by
  rw [h1] at h2
  exact Option.some.inj h2

/-- Witness for C8 at `board_test`. -/
theorem check_violation_deterministic_witness :
    ({"color"} : Finset String) = {"color"} :=
  check_violation_deterministic board_test {"color"} {"color"}
    (by decide) (by decide)

/-- Claim C9: `check_violation` applies the same rule to every stored
property relation regardless of its `kind` field: a relation of kind
`AntiAffinity` on a reachable board is marked violated iff some entity
carrying its `entity_property` is assigned to a resource that does not
carry its `resource_property` — the Affinity rule, not a symmetric or
skipped check. -/
theorem antiaffinity_checked_as_affinity (b : Board) (h : Reachable b)
    (k : String) (relation : PropertyRelation)
    (hmem : (k, relation) ∈ b.property_relations)
    (_hkind : relation.kind = PropertyRelationKind.AntiAffinity)
    (s : Finset String) (hs : b.check_violation = some s) :
    relation.id ∈ s ↔ rel_violated b relation = true :=
  check_violation_mem_of_wf (wf_reachable h) hmem hs

/-- Witness for C9 at `board_anti`: the AntiAffinity variant of the
`board_test` relation is reported violated, exactly as an Affinity one. -/
theorem antiaffinity_checked_as_affinity_witness :
    color_anti_rel.id ∈ ({"color"} : Finset String)
      ↔ rel_violated board_anti color_anti_rel = true :=
  antiaffinity_checked_as_affinity board_anti reach_board_anti "color"
    color_anti_rel (by decide) rfl {"color"} (by decide)

/-- Claim C10: whenever `add_entity` fails (returns `false`) — unknown
resource id, entity already assigned, or entity already existing — the
board is left entirely unchanged. -/
theorem add_entity_fail_unchanged (b b' : Board) (resource_id : String)
    (e : Entity) (h : b.add_entity resource_id e = some (false, b')) :
    b' = b := by
  unfold Board.add_entity at h
  by_cases h1 : Map.contains_key b.resources resource_id
  · by_cases h2 : Map.contains_key b.assignment e.id
    · simp [h1, h2] at h
      exact h.symm
    · by_cases h3 : Map.contains_key b.entities e.id
      · simp [h1, h2, h3] at h
        exact h.symm
      · have h3' : Map.contains_key b.entities e.id = false := by
          simpa using h3
        simp [h1, h2, h3, Map.insertOp,
          Map.get_eq_none_of_contains_false h3'] at h
  · simp [h1] at h
    exact h.symm

/-- Witness for C10: re-adding the already-assigned `app1` fails and
leaves `board_app1` unchanged. -/
theorem add_entity_fail_unchanged_witness : board_app1 = board_app1 :=
  add_entity_fail_unchanged board_app1 board_app1 "node1" app1 (by decide)

end Solver
